import Mathlib

/-!
# Verification of the UserDao data-access layer

Shallow embedding of `src/daos/UserDao.ts` from the repository
`kachalmers/software-engineering-node`.

The DAO delegates every operation to a document-store collection
(`UserModel`, a mongoose model whose definition is not among the given
source files). The collection primitives (`find`, `findOne`, `findById`,
`create`, `updateOne`, `deleteOne`, `deleteMany`) are therefore modelled
from the specification's description of the database boundary:
a generic document-collection interface offering find-one, find-many,
insert, update-one with a partial field set, delete-one and delete-many,
where targeted mutations affect the first matching record, "not found"
lookups yield an empty/null result, and zero-match mutations resolve with
a zero-effect acknowledgment.

Each DAO method is then defined as the source defines it: a single call
to the corresponding collection primitive with the filter and update
object written in `UserDao.ts`, threading the collection state
explicitly in place of the database.
-/

/-- A stored user document. The `users` collection holds fields
including at least: id, username, password, salary. Ids are modelled as
naturals generated by the store. -/
structure UserRecord where
  uid : Nat
  username : String
  password : String
  salary : Int
  deriving DecidableEq, Repr

/-- The input to `createUser`: a user record without its id, which the
store generates at insertion. -/
structure UserInput where
  username : String
  password : String
  salary : Int
  deriving DecidableEq, Repr

/-- A partial field set, as passed to `updateOne`'s `$set`: each field is
present (`some`) or absent (`none`). The TS source passes a `User` object
whose present properties form the update. -/
structure UserSet where
  username : Option String
  password : Option String
  salary : Option Int
  deriving DecidableEq, Repr

/-- Modelled from the spec: applying a `$set` partial field set to a
document overwrites exactly the present fields and leaves every other
field (including the id) unchanged. -/
def applySet (u : UserSet) (r : UserRecord) : UserRecord :=
  { uid := r.uid
    username := u.username.getD r.username
    password := u.password.getD r.password
    salary := u.salary.getD r.salary }

/-- The state of the `users` collection: the stored documents, plus the
next id the store will generate. -/
structure DB where
  users : List UserRecord
  nextId : Nat
  deriving DecidableEq, Repr

/-- The acknowledgment returned by `updateOne`: how many documents the
filter matched and how many were modified. -/
structure UpdateAck where
  matchedCount : Nat
  modifiedCount : Nat
  deriving DecidableEq, Repr

/-- The acknowledgment returned by `deleteOne` / `deleteMany`. -/
structure DeleteAck where
  deletedCount : Nat
  deriving DecidableEq, Repr

/-- Modelled from the spec: find-many returns all stored documents and
reads do not modify the collection. -/
def collFind (db : DB) : List UserRecord × DB :=
  (db.users, db)

/-- Modelled from the spec: find-one returns the single record matching
the filter, or an empty/null result if absent; reads do not modify the
collection. -/
def collFindOne (p : UserRecord → Bool) (db : DB) : Option UserRecord × DB :=
  (db.users.find? p, db)

/-- Modelled from the spec: insert stores a new record carrying a
store-generated id and returns the inserted record including that id. -/
def collCreate (u : UserInput) (db : DB) : UserRecord × DB :=
  let r : UserRecord :=
    { uid := db.nextId
      username := u.username
      password := u.password
      salary := u.salary }
  (r, { users := db.users ++ [r], nextId := db.nextId + 1 })

/-- Update-one on the stored list: rewrite the first record matching the
filter with `f`, returning the new list, the matched count and the
modified count. -/
def updateOneList (p : UserRecord → Bool) (f : UserRecord → UserRecord) :
    List UserRecord → List UserRecord × Nat × Nat
  | [] => ([], 0, 0)
  | r :: rs =>
    if p r then
      (f r :: rs, 1, if f r = r then 0 else 1)
    else
      let (rs', m, n) := updateOneList p f rs
      (r :: rs', m, n)

/-- Modelled from the spec: update-one applies a partial field update to
the (first) record matching the filter and returns an update
acknowledgment, not the updated document; matching zero records is a
zero-effect acknowledgment, not an error. -/
def collUpdateOne (p : UserRecord → Bool) (f : UserRecord → UserRecord)
    (db : DB) : UpdateAck × DB :=
  let (users', m, n) := updateOneList p f db.users
  (⟨m, n⟩, { db with users := users' })

/-- Delete-one on the stored list: remove the first record matching the
filter, returning the new list and the deleted count. -/
def deleteOneList (p : UserRecord → Bool) :
    List UserRecord → List UserRecord × Nat
  | [] => ([], 0)
  | r :: rs =>
    if p r then (rs, 1)
    else
      let (rs', n) := deleteOneList p rs
      (r :: rs', n)

/-- Modelled from the spec: delete-one removes the (first) record
matching the filter; it succeeds, reporting zero affected, even if no
record matched. -/
def collDeleteOne (p : UserRecord → Bool) (db : DB) : DeleteAck × DB :=
  let (users', n) := deleteOneList p db.users
  (⟨n⟩, { db with users := users' })

/-- Modelled from the spec: delete-many with the empty filter removes
every record in the collection. -/
def collDeleteMany (db : DB) : DeleteAck × DB :=
  (⟨db.users.length⟩, { db with users := [] })

namespace UserDao

/-- Source: `findAllUsers = async (): Promise<User[]> => UserModel.find().exec()` -/
def findAllUsers (db : DB) : List UserRecord × DB :=
  collFind db

/-- Source: `findUserById = async (uid: string): Promise<any> => UserModel.findById(uid)` -/
def findUserById (uid : Nat) (db : DB) : Option UserRecord × DB :=
  collFindOne (fun r => r.uid == uid) db

/-- Source: `createUser = async (user: User): Promise<User> => UserModel.create(user)` -/
def createUser (user : UserInput) (db : DB) : UserRecord × DB :=
  collCreate user db

/-- Source: `updateUser = async (uid, user) => UserModel.updateOne(\x7b_id: uid\x7d, \x7b$set: user\x7d)` -/
def updateUser (uid : Nat) (user : UserSet) (db : DB) : UpdateAck × DB :=
  collUpdateOne (fun r => r.uid == uid) (applySet user) db

/-- Source: `updateUserSalaryByUsername = async (username, salary) =>
UserModel.updateOne(\x7busername\x7d, \x7b$set: \x7bsalary: salary\x7d\x7d)` -/
def updateUserSalaryByUsername (username : String) (salary : Int) (db : DB) :
    UpdateAck × DB :=
  collUpdateOne (fun r => r.username == username)
    (applySet ⟨none, none, some salary⟩) db

/-- Source: `deleteUser = async (uid: string): Promise<any> => UserModel.deleteOne(\x7b_id: uid\x7d)` -/
def deleteUser (uid : Nat) (db : DB) : DeleteAck × DB :=
  collDeleteOne (fun r => r.uid == uid) db

/-- Source: `deleteAllUsers = async (): Promise<any> => UserModel.deleteMany(\x7b\x7d)` -/
def deleteAllUsers (db : DB) : DeleteAck × DB :=
  collDeleteMany db

/-- Source: `findUserByCredentials = async (username, password) =>
UserModel.findOne(\x7busername: username, password: password\x7d)` -/
def findUserByCredentials (username password : String) (db : DB) :
    Option UserRecord × DB :=
  collFindOne (fun r => r.username == username && r.password == password) db

/-- Source: `findUserByUsername = async (username) => UserModel.findOne(\x7busername\x7d)` -/
def findUserByUsername (username : String) (db : DB) : Option UserRecord × DB :=
  collFindOne (fun r => r.username == username) db

end UserDao

/-- Well-formedness of a collection state: every stored id is below the
next generated id (so generated ids are fresh), and stored ids are
pairwise distinct. -/
def DB.WF (db : DB) : Prop :=
  (∀ r ∈ db.users, r.uid < db.nextId) ∧ (db.users.map (fun r => r.uid)).Nodup

instance (db : DB) : Decidable db.WF := by
  unfold DB.WF; infer_instance

/-- The empty collection, before any operation ran. -/
def DB.empty : DB := ⟨[], 0⟩

namespace UserDao

/-- The static field `private static userDao: UserDao | null = null` of
class `UserDao`, paired with an allocation counter that models reference
identity of `new UserDao()`: each construction yields a fresh reference. -/
structure DaoState where
  userDao : Option Nat
  fresh : Nat
  deriving DecidableEq, Repr

/-- The initial static state: `userDao` is `null`. -/
def DaoState.initial : DaoState := ⟨none, 0⟩

/-- Source: `getInstance = (): UserDao => \x7b if(UserDao.userDao === null)
\x7b UserDao.userDao = new UserDao(); \x7d return UserDao.userDao; \x7d` -/
def getInstance (s : DaoState) : Nat × DaoState :=
  match s.userDao with
  | none => (s.fresh, ⟨some s.fresh, s.fresh + 1⟩)
  | some i => (i, s)

end UserDao

/-- C5: in every state, after `deleteAllUsers()` resolves, `findAllUsers()`
returns an empty collection. -/
theorem deleteAllUsers_findAllUsers (db : DB) :
    (UserDao.findAllUsers (UserDao.deleteAllUsers db).2).1 = [] :=
  rfl

/-- C8: every call to `UserDao.getInstance()` returns the same instance:
a second call on the state left by a first call returns the same
reference and leaves the state unchanged, so the singleton is
constructed at most once and all calls agree on the reference. -/
theorem getInstance_singleton (s : UserDao.DaoState) :
    UserDao.getInstance (UserDao.getInstance s).2
      = ((UserDao.getInstance s).1, (UserDao.getInstance s).2) := by
  unfold UserDao.getInstance
  cases h : s.userDao <;> simp [h]

/-- C9: the query operations are read-only: `findAllUsers`,
`findUserById`, `findUserByUsername` and `findUserByCredentials` leave
the stored collection exactly as it was, for every input and state. -/
theorem queries_read_only (uid : Nat) (username password : String) (db : DB) :
    (UserDao.findAllUsers db).2 = db ∧
    (UserDao.findUserById uid db).2 = db ∧
    (UserDao.findUserByUsername username db).2 = db ∧
    (UserDao.findUserByCredentials username password db).2 = db :=
  ⟨rfl, rfl, rfl, rfl⟩

/-- C3: `findUserByCredentials` returns a record only when some stored
user's username and password both equal the arguments exactly; if either
differs for every stored user, it returns an empty/null result. -/
theorem findUserByCredentials_exact (username password : String) (db : DB) :
    (∀ r : UserRecord,
        (UserDao.findUserByCredentials username password db).1 = some r →
        r ∈ db.users ∧ r.username = username ∧ r.password = password) ∧
    ((∀ r ∈ db.users, r.username ≠ username ∨ r.password ≠ password) →
        (UserDao.findUserByCredentials username password db).1 = none) := by
  constructor
  · intro r hr
    simp only [UserDao.findUserByCredentials, collFindOne] at hr
    have hm := List.mem_of_find?_eq_some hr
    have hp := List.find?_some hr
    simp only [Bool.and_eq_true, beq_iff_eq] at hp
    exact ⟨hm, hp.1, hp.2⟩
  · intro hall
    simp only [UserDao.findUserByCredentials, collFindOne]
    rw [List.find?_eq_none]
    intro x hx
    simp only [Bool.and_eq_true, beq_iff_eq, not_and]
    intro h1
    rcases hall x hx with h | h
    · exact absurd h1 h
    · exact h

/-- Witness for C3 at a one-record collection: the stored record is
returned for its exact credentials, and a wrong username yields an
empty result. -/
theorem findUserByCredentials_exact_witness :
    ((⟨0, "alice", "p1", 1000⟩ : UserRecord)
        ∈ (⟨[⟨0, "alice", "p1", 1000⟩], 1⟩ : DB).users ∧
      (⟨0, "alice", "p1", 1000⟩ : UserRecord).username = "alice" ∧
      (⟨0, "alice", "p1", 1000⟩ : UserRecord).password = "p1") ∧
    (UserDao.findUserByCredentials "bob" "p1"
        ⟨[⟨0, "alice", "p1", 1000⟩], 1⟩).1 = none :=
  ⟨(findUserByCredentials_exact "alice" "p1"
      ⟨[⟨0, "alice", "p1", 1000⟩], 1⟩).1 ⟨0, "alice", "p1", 1000⟩ rfl,
   (findUserByCredentials_exact "bob" "p1"
      ⟨[⟨0, "alice", "p1", 1000⟩], 1⟩).2 (by decide)⟩

/-- C1: for every valid user record, after `createUser` returns the
inserted record with its generated id, `findUserById` at that id returns
a record equal to the input on all fields supplied at insertion. -/
theorem createUser_findUserById (u : UserInput) (db : DB) (h : db.WF) :
    (UserDao.findUserById (UserDao.createUser u db).1.uid
        (UserDao.createUser u db).2).1 = some (UserDao.createUser u db).1 ∧
    (UserDao.createUser u db).1.username = u.username ∧
    (UserDao.createUser u db).1.password = u.password ∧
    (UserDao.createUser u db).1.salary = u.salary := by
  refine ⟨?_, rfl, rfl, rfl⟩
  obtain ⟨hlt, -⟩ := h
  simp only [UserDao.createUser, collCreate, UserDao.findUserById, collFindOne]
  rw [List.find?_append]
  have h1 : db.users.find? (fun r => r.uid == db.nextId) = none := by
    rw [List.find?_eq_none]
    intro x hx
    simp only [beq_iff_eq]
    exact Nat.ne_of_lt (hlt x hx)
  rw [h1]
  simp

/-- Witness for C1: inserting alice into the empty collection and
looking the generated id up returns the inserted record. -/
theorem createUser_findUserById_witness :
    DB.empty.WF ∧
    ((UserDao.findUserById
        (UserDao.createUser ⟨"alice", "p1", 1000⟩ DB.empty).1.uid
        (UserDao.createUser ⟨"alice", "p1", 1000⟩ DB.empty).2).1
      = some (UserDao.createUser ⟨"alice", "p1", 1000⟩ DB.empty).1 ∧
     (UserDao.createUser ⟨"alice", "p1", 1000⟩ DB.empty).1.username = "alice" ∧
     (UserDao.createUser ⟨"alice", "p1", 1000⟩ DB.empty).1.password = "p1" ∧
     (UserDao.createUser ⟨"alice", "p1", 1000⟩ DB.empty).1.salary = 1000) :=
  ⟨by decide, createUser_findUserById ⟨"alice", "p1", 1000⟩ DB.empty (by decide)⟩

/-- Characterization of `updateOneList`: either no record matches and the
list and counts are untouched, or the list splits around the first match,
which alone is rewritten. -/
theorem updateOneList_spec (p : UserRecord → Bool) (f : UserRecord → UserRecord) :
    ∀ l : List UserRecord,
      ((∀ r ∈ l, p r = false) ∧ updateOneList p f l = (l, 0, 0)) ∨
      (∃ l1 r l2, l = l1 ++ r :: l2 ∧ p r = true ∧ (∀ x ∈ l1, p x = false) ∧
        updateOneList p f l = (l1 ++ f r :: l2, 1, if f r = r then 0 else 1))
  | [] => Or.inl ⟨by simp, rfl⟩
  | r :: rs => by
    cases hpr : p r with
    | true =>
      exact Or.inr ⟨[], r, rs, rfl, hpr, by simp, by simp [updateOneList, hpr]⟩
    | false =>
      rcases updateOneList_spec p f rs with ⟨hall, heq⟩ | ⟨l1, x, l2, hl, hp, hl1, heq⟩
      · refine Or.inl ⟨?_, by simp [updateOneList, hpr, heq]⟩
        intro a ha
        rcases List.mem_cons.mp ha with rfl | ha'
        · exact hpr
        · exact hall a ha'
      · refine Or.inr ⟨r :: l1, x, l2, by simp [hl], hp, ?_,
          by simp [updateOneList, hpr, heq]⟩
        intro a ha
        rcases List.mem_cons.mp ha with rfl | ha'
        · exact hpr
        · exact hl1 a ha'

/-- Characterization of `deleteOneList`: either no record matches and the
list is untouched with count 0, or the list splits around the first
match, which alone is removed. -/
theorem deleteOneList_spec (p : UserRecord → Bool) :
    ∀ l : List UserRecord,
      ((∀ r ∈ l, p r = false) ∧ deleteOneList p l = (l, 0)) ∨
      (∃ l1 r l2, l = l1 ++ r :: l2 ∧ p r = true ∧ (∀ x ∈ l1, p x = false) ∧
        deleteOneList p l = (l1 ++ l2, 1))
  | [] => Or.inl ⟨by simp, rfl⟩
  | r :: rs => by
    cases hpr : p r with
    | true =>
      exact Or.inr ⟨[], r, rs, rfl, hpr, by simp, by simp [deleteOneList, hpr]⟩
    | false =>
      rcases deleteOneList_spec p rs with ⟨hall, heq⟩ | ⟨l1, x, l2, hl, hp, hl1, heq⟩
      · refine Or.inl ⟨?_, by simp [deleteOneList, hpr, heq]⟩
        intro a ha
        rcases List.mem_cons.mp ha with rfl | ha'
        · exact hpr
        · exact hall a ha'
      · refine Or.inr ⟨r :: l1, x, l2, by simp [hl], hp, ?_,
          by simp [deleteOneList, hpr, heq]⟩
        intro a ha
        rcases List.mem_cons.mp ha with rfl | ha'
        · exact hpr
        · exact hl1 a ha'

/-- When no record matches, `updateOneList` is the identity with zero
counts. -/
theorem updateOneList_no_match (p : UserRecord → Bool) (f : UserRecord → UserRecord) :
    ∀ l : List UserRecord, (∀ r ∈ l, p r = false) → updateOneList p f l = (l, 0, 0)
  | [], _ => rfl
  | r :: rs, h => by
    have hr : p r = false := h r (List.mem_cons_self r rs)
    have hrs := updateOneList_no_match p f rs fun x hx => h x (List.mem_cons_of_mem r hx)
    simp [updateOneList, hr, hrs]

/-- When no record matches, `deleteOneList` is the identity with count 0. -/
theorem deleteOneList_no_match (p : UserRecord → Bool) :
    ∀ l : List UserRecord, (∀ r ∈ l, p r = false) → deleteOneList p l = (l, 0)
  | [], _ => rfl
  | r :: rs, h => by
    have hr : p r = false := h r (List.mem_cons_self r rs)
    have hrs := deleteOneList_no_match p rs fun x hx => h x (List.mem_cons_of_mem r hx)
    simp [deleteOneList, hr, hrs]

/-- C6: a mutation whose filter matches zero records resolves with a
zero-effect acknowledgment and leaves the stored collection unchanged:
`updateUser` with an unmatched id, `updateUserSalaryByUsername` with an
unmatched username, and `deleteUser` with an unmatched id. -/
theorem noop_mutations (uid : Nat) (u : UserSet) (username : String)
    (salary : Int) (db : DB)
    (h1 : ∀ r ∈ db.users, r.uid ≠ uid)
    (h2 : ∀ r ∈ db.users, r.username ≠ username) :
    UserDao.updateUser uid u db = (⟨0, 0⟩, db) ∧
    UserDao.updateUserSalaryByUsername username salary db = (⟨0, 0⟩, db) ∧
    UserDao.deleteUser uid db = (⟨0⟩, db) := by
  have hb1 : ∀ r ∈ db.users, (r.uid == uid) = false := fun r hr => by
    simpa using h1 r hr
  have hb2 : ∀ r ∈ db.users, (r.username == username) = false := fun r hr => by
    simpa using h2 r hr
  refine ⟨?_, ?_, ?_⟩
  · simp [UserDao.updateUser, collUpdateOne,
      updateOneList_no_match _ (applySet u) db.users hb1]
  · simp [UserDao.updateUserSalaryByUsername, collUpdateOne,
      updateOneList_no_match _ (applySet ⟨none, none, some salary⟩) db.users hb2]
  · simp [UserDao.deleteUser, collDeleteOne, deleteOneList_no_match _ db.users hb1]

/-- Witness for C6: on a one-record collection, the unmatched id 5 and
the unmatched username "bob" produce zero-effect acknowledgments and an
unchanged collection. -/
theorem noop_mutations_witness :
    (∀ r ∈ (⟨[⟨0, "alice", "p1", 1000⟩], 1⟩ : DB).users, r.uid ≠ 5) ∧
    (∀ r ∈ (⟨[⟨0, "alice", "p1", 1000⟩], 1⟩ : DB).users, r.username ≠ "bob") ∧
    (UserDao.updateUser 5 ⟨none, none, some 7⟩ ⟨[⟨0, "alice", "p1", 1000⟩], 1⟩
        = (⟨0, 0⟩, ⟨[⟨0, "alice", "p1", 1000⟩], 1⟩) ∧
     UserDao.updateUserSalaryByUsername "bob" 7 ⟨[⟨0, "alice", "p1", 1000⟩], 1⟩
        = (⟨0, 0⟩, ⟨[⟨0, "alice", "p1", 1000⟩], 1⟩) ∧
     UserDao.deleteUser 5 ⟨[⟨0, "alice", "p1", 1000⟩], 1⟩
        = (⟨0⟩, ⟨[⟨0, "alice", "p1", 1000⟩], 1⟩)) :=
  ⟨by decide, by decide,
   noop_mutations 5 ⟨none, none, some 7⟩ "bob" 7 ⟨[⟨0, "alice", "p1", 1000⟩], 1⟩
     (by decide) (by decide)⟩

/-- C10: each targeted mutation affects at most one record: the stored
list is either unchanged, or splits around one matched record which
alone is rewritten (updates) or removed (delete); every other record is
unchanged in place. -/
theorem targeted_mutations_affect_at_most_one (uid : Nat) (u : UserSet)
    (username : String) (salary : Int) (db : DB) :
    ((UserDao.updateUser uid u db).2.users = db.users ∨
      ∃ l1 r l2, db.users = l1 ++ r :: l2 ∧
        (UserDao.updateUser uid u db).2.users = l1 ++ applySet u r :: l2) ∧
    ((UserDao.updateUserSalaryByUsername username salary db).2.users = db.users ∨
      ∃ l1 r l2, db.users = l1 ++ r :: l2 ∧
        (UserDao.updateUserSalaryByUsername username salary db).2.users
          = l1 ++ applySet ⟨none, none, some salary⟩ r :: l2) ∧
    ((UserDao.deleteUser uid db).2.users = db.users ∨
      ∃ l1 r l2, db.users = l1 ++ r :: l2 ∧
        (UserDao.deleteUser uid db).2.users = l1 ++ l2) := by
  refine ⟨?_, ?_, ?_⟩
  · rcases updateOneList_spec (fun r => r.uid == uid) (applySet u) db.users with
      ⟨-, heq⟩ | ⟨l1, r, l2, hl, -, -, heq⟩
    · exact Or.inl (by simp [UserDao.updateUser, collUpdateOne, heq])
    · exact Or.inr ⟨l1, r, l2, hl, by simp [UserDao.updateUser, collUpdateOne, heq]⟩
  · rcases updateOneList_spec (fun r => r.username == username)
        (applySet ⟨none, none, some salary⟩) db.users with
      ⟨-, heq⟩ | ⟨l1, r, l2, hl, -, -, heq⟩
    · exact Or.inl
        (by simp [UserDao.updateUserSalaryByUsername, collUpdateOne, heq])
    · exact Or.inr ⟨l1, r, l2, hl,
        by simp [UserDao.updateUserSalaryByUsername, collUpdateOne, heq]⟩
  · rcases deleteOneList_spec (fun r => r.uid == uid) db.users with
      ⟨-, heq⟩ | ⟨l1, r, l2, hl, -, -, heq⟩
    · exact Or.inl (by simp [UserDao.deleteUser, collDeleteOne, heq])
    · exact Or.inr ⟨l1, r, l2, hl, by simp [UserDao.deleteUser, collDeleteOne, heq]⟩

/-- C4: after `deleteUser(i)` resolves on a well-formed collection, a
subsequent `findUserById(i)` returns an empty/null result. -/
theorem deleteUser_findUserById (uid : Nat) (db : DB) (h : db.WF) :
    (UserDao.findUserById uid (UserDao.deleteUser uid db).2).1 = none := by
  obtain ⟨-, hnd⟩ := h
  simp only [UserDao.findUserById, UserDao.deleteUser, collFindOne, collDeleteOne]
  rcases deleteOneList_spec (fun r => r.uid == uid) db.users with
    ⟨hall, heq⟩ | ⟨l1, r, l2, hl, hp, hl1, heq⟩
  · simp only [heq]
    rw [List.find?_eq_none]
    intro x hx
    simp [hall x hx]
  · simp only [heq]
    rw [List.find?_eq_none]
    have hruid : r.uid = uid := by simpa using hp
    rw [hl, List.map_append, List.map_cons] at hnd
    rw [List.nodup_middle] at hnd
    have hnotin := (List.nodup_cons.mp hnd).1
    rw [← List.map_append] at hnotin
    intro x hx
    simp only [beq_iff_eq]
    rcases List.mem_append.mp hx with hx1 | hx2
    · simpa using hl1 x hx1
    · intro hxeq
      exact hnotin (hruid ▸ hxeq ▸ List.mem_map_of_mem (fun r => r.uid)
        (List.mem_append.mpr (Or.inr hx2)))

/-- Witness for C4: deleting id 0 from a well-formed one-record
collection makes a lookup of id 0 return none. -/
theorem deleteUser_findUserById_witness :
    (⟨[⟨0, "alice", "p1", 1000⟩], 1⟩ : DB).WF ∧
    (UserDao.findUserById 0
        (UserDao.deleteUser 0 ⟨[⟨0, "alice", "p1", 1000⟩], 1⟩).2).1 = none :=
  ⟨by decide, deleteUser_findUserById 0 ⟨[⟨0, "alice", "p1", 1000⟩], 1⟩ (by decide)⟩

/-- Pointwise view of a one-record rewrite: a record of the rewritten
list at position `i` is the old record at `i`, unless `i` is the rewrite
position, where it is the rewritten record. -/
theorem getElem?_split :
    ∀ (l1 : List UserRecord) (r r' : UserRecord) (l2 : List UserRecord)
      (i : Nat) (x' : UserRecord), (l1 ++ r' :: l2)[i]? = some x' →
      ∃ x, (l1 ++ r :: l2)[i]? = some x ∧ (x' = x ∨ (x = r ∧ x' = r'))
  | [], r, r', l2, 0, x', h => by
    have hx : x' = r' := by simpa using h.symm
    exact ⟨r, by simp, Or.inr ⟨rfl, hx⟩⟩
  | [], r, r', l2, i + 1, x', h => by
    refine ⟨x', ?_, Or.inl rfl⟩
    simpa using h
  | a :: l1, r, r', l2, 0, x', h => by
    have hx : x' = a := by simpa using h.symm
    exact ⟨a, by simp, Or.inl hx⟩
  | a :: l1, r, r', l2, i + 1, x', h => by
    have h' : (l1 ++ r' :: l2)[i]? = some x' := by simpa using h
    obtain ⟨x, hx, hcase⟩ := getElem?_split l1 r r' l2 i x' h'
    exact ⟨x, by simpa using hx, hcase⟩

/-- C2: `updateUser` and `updateUserSalaryByUsername` change only the
fields named in the update on the matched record; every field not named
keeps its previous value, and after `updateUserSalaryByUsername` the
username and password of every record are unchanged. -/
theorem updates_change_only_named_fields (uid : Nat) (u : UserSet)
    (username : String) (salary : Int) (db : DB) :
    (∀ (i : Nat) (r' : UserRecord),
        (UserDao.updateUser uid u db).2.users[i]? = some r' →
        ∃ r, db.users[i]? = some r ∧
          (r' = r ∨ (r' = applySet u r ∧ r'.uid = r.uid ∧
            (u.username = none → r'.username = r.username) ∧
            (u.password = none → r'.password = r.password) ∧
            (u.salary = none → r'.salary = r.salary)))) ∧
    (∀ (i : Nat) (r' : UserRecord),
        (UserDao.updateUserSalaryByUsername username salary db).2.users[i]?
            = some r' →
        ∃ r, db.users[i]? = some r ∧ r'.uid = r.uid ∧
          r'.username = r.username ∧ r'.password = r.password ∧
          (r' = r ∨ r'.salary = salary)) := by
  constructor
  · intro i r' hr'
    rcases updateOneList_spec (fun r => r.uid == uid) (applySet u) db.users with
      ⟨-, heq⟩ | ⟨l1, r0, l2, hl, -, -, heq⟩
    · have husers : (UserDao.updateUser uid u db).2.users = db.users := by
        simp [UserDao.updateUser, collUpdateOne, heq]
      rw [husers] at hr'
      exact ⟨r', hr', Or.inl rfl⟩
    · have husers : (UserDao.updateUser uid u db).2.users
          = l1 ++ applySet u r0 :: l2 := by
        simp [UserDao.updateUser, collUpdateOne, heq]
      rw [husers] at hr'
      obtain ⟨x, hx, hcase⟩ := getElem?_split l1 r0 (applySet u r0) l2 i r' hr'
      refine ⟨x, by rw [hl]; exact hx, ?_⟩
      rcases hcase with rfl | ⟨rfl, rfl⟩
      · exact Or.inl rfl
      · refine Or.inr ⟨rfl, rfl, ?_, ?_, ?_⟩
        · intro hn; simp [applySet, hn]
        · intro hn; simp [applySet, hn]
        · intro hn; simp [applySet, hn]
  · intro i r' hr'
    rcases updateOneList_spec (fun r => r.username == username)
        (applySet ⟨none, none, some salary⟩) db.users with
      ⟨-, heq⟩ | ⟨l1, r0, l2, hl, -, -, heq⟩
    · have husers : (UserDao.updateUserSalaryByUsername username salary db).2.users
          = db.users := by
        simp [UserDao.updateUserSalaryByUsername, collUpdateOne, heq]
      rw [husers] at hr'
      exact ⟨r', hr', rfl, rfl, rfl, Or.inl rfl⟩
    · have husers : (UserDao.updateUserSalaryByUsername username salary db).2.users
          = l1 ++ applySet ⟨none, none, some salary⟩ r0 :: l2 := by
        simp [UserDao.updateUserSalaryByUsername, collUpdateOne, heq]
      rw [husers] at hr'
      obtain ⟨x, hx, hcase⟩ :=
        getElem?_split l1 r0 (applySet ⟨none, none, some salary⟩ r0) l2 i r' hr'
      refine ⟨x, by rw [hl]; exact hx, ?_⟩
      rcases hcase with rfl | ⟨rfl, rfl⟩
      · exact ⟨rfl, rfl, rfl, Or.inl rfl⟩
      · exact ⟨rfl, rfl, rfl, Or.inr rfl⟩

/-- Witness for C2: a salary-only `updateUser` on a one-record collection
leaves username, password and id as they were. -/
theorem updates_change_only_named_fields_witness :
    ∃ r, (⟨[⟨0, "alice", "p1", 1000⟩], 1⟩ : DB).users[0]? = some r ∧
      ((⟨0, "alice", "p1", 2000⟩ : UserRecord) = r ∨
        ((⟨0, "alice", "p1", 2000⟩ : UserRecord)
            = applySet ⟨none, none, some 2000⟩ r ∧
         (⟨0, "alice", "p1", 2000⟩ : UserRecord).uid = r.uid ∧
         ((none : Option String) = none →
            (⟨0, "alice", "p1", 2000⟩ : UserRecord).username = r.username) ∧
         ((none : Option String) = none →
            (⟨0, "alice", "p1", 2000⟩ : UserRecord).password = r.password) ∧
         ((some 2000 : Option Int) = none →
            (⟨0, "alice", "p1", 2000⟩ : UserRecord).salary = r.salary))) :=
  (updates_change_only_named_fields 0 ⟨none, none, some 2000⟩ "x" 0
      ⟨[⟨0, "alice", "p1", 1000⟩], 1⟩).1 0 ⟨0, "alice", "p1", 2000⟩ rfl

/-- Projection of `collUpdateOne` to the resulting collection state. -/
theorem collUpdateOne_snd (p : UserRecord → Bool) (f : UserRecord → UserRecord)
    (db : DB) :
    (collUpdateOne p f db).2 = DB.mk (updateOneList p f db.users).1 db.nextId := by
  rcases hres : updateOneList p f db.users with ⟨users', m, n⟩
  simp [collUpdateOne, hres]

/-- Projection of `collDeleteOne` to the resulting collection state. -/
theorem collDeleteOne_snd (p : UserRecord → Bool) (db : DB) :
    (collDeleteOne p db).2 = DB.mk (deleteOneList p db.users).1 db.nextId := by
  rcases hres : deleteOneList p db.users with ⟨users', n⟩
  simp [collDeleteOne, hres]

/-- A single-match rewrite preserves the stored ids when the rewriting
function preserves the id. -/
theorem updateOneList_map_uid (p : UserRecord → Bool) (f : UserRecord → UserRecord)
    (hf : ∀ r, (f r).uid = r.uid) :
    ∀ l : List UserRecord,
      (updateOneList p f l).1.map (fun r => r.uid) = l.map (fun r => r.uid)
  | [] => rfl
  | r :: rs => by
    cases hpr : p r with
    | true => simp [updateOneList, hpr, hf r]
    | false =>
      have ih := updateOneList_map_uid p f hf rs
      rcases hres : updateOneList p f rs with ⟨rs', m, n⟩
      rw [hres] at ih
      simp only at ih
      simp [updateOneList, hpr, hres, ih]

/-- A collection state with the same stored ids and the same next id as
a well-formed one is well-formed. -/
theorem WF_of_map_uid_eq {db : DB} (users' : List UserRecord)
    (hmap : users'.map (fun r => r.uid) = db.users.map (fun r => r.uid))
    (h : db.WF) : (DB.mk users' db.nextId).WF := by
  obtain ⟨hlt, hnd⟩ := h
  constructor
  · intro r hr
    have hmem : r.uid ∈ db.users.map (fun r => r.uid) :=
      hmap ▸ List.mem_map_of_mem (fun r => r.uid) hr
    rcases List.mem_map.mp hmem with ⟨r0, hr0, he⟩
    exact he ▸ hlt r0 hr0
  · show (users'.map (fun r => r.uid)).Nodup
    rw [hmap]
    exact hnd

/-- Removing one record from a well-formed collection keeps it
well-formed. -/
theorem WF_delete_case {db : DB} {l1 l2 : List UserRecord} {r : UserRecord}
    (hl : db.users = l1 ++ r :: l2) (h : db.WF) :
    (DB.mk (l1 ++ l2) db.nextId).WF := by
  obtain ⟨hlt, hnd⟩ := h
  have hsub : (l1 ++ l2).Sublist db.users := by
    rw [hl]
    exact List.Sublist.append (List.Sublist.refl l1) (List.sublist_cons_self r l2)
  constructor
  · intro x hx
    exact hlt x (hsub.subset hx)
  · exact List.Nodup.sublist (hsub.map (fun r => r.uid)) hnd

/-- Creation preserves well-formedness: the generated id is fresh. -/
theorem WF_create (u : UserInput) {db : DB} (h : db.WF) :
    (UserDao.createUser u db).2.WF := by
  obtain ⟨hlt, hnd⟩ := h
  constructor
  · intro r hr
    simp only [UserDao.createUser, collCreate] at hr
    rcases List.mem_append.mp hr with hr1 | hr2
    · exact Nat.lt_succ_of_lt (hlt r hr1)
    · have : r = ⟨db.nextId, u.username, u.password, u.salary⟩ := by simpa using hr2
      rw [this]
      exact Nat.lt_succ_self _
  · simp only [UserDao.createUser, collCreate, List.map_append, List.map_cons,
      List.map_nil]
    rw [List.nodup_append]
    refine ⟨hnd, List.nodup_singleton _, ?_⟩
    intro a ha hb
    have hb' : a = db.nextId := by simpa using hb
    rcases List.mem_map.mp ha with ⟨r0, hr0, he⟩
    have := hlt r0 hr0
    rw [he, hb'] at this
    exact Nat.lt_irrefl _ this

/-- The collection states reachable by the DAO's mutating operations
from the empty collection. -/
inductive Reachable : DB → Prop
  | empty : Reachable DB.empty
  | create (u : UserInput) {db : DB} : Reachable db →
      Reachable (UserDao.createUser u db).2
  | update (uid : Nat) (u : UserSet) {db : DB} : Reachable db →
      Reachable (UserDao.updateUser uid u db).2
  | updateSalary (username : String) (salary : Int) {db : DB} : Reachable db →
      Reachable (UserDao.updateUserSalaryByUsername username salary db).2
  | deleteOne (uid : Nat) {db : DB} : Reachable db →
      Reachable (UserDao.deleteUser uid db).2
  | deleteAll {db : DB} : Reachable db →
      Reachable (UserDao.deleteAllUsers db).2

/-- Every reachable collection state is well-formed. -/
theorem reachable_wf : ∀ {db : DB}, Reachable db → db.WF := by
  intro db h
  induction h with
  | empty => exact ⟨by simp [DB.empty], by simp [DB.empty]⟩
  | create u _ ih => exact WF_create u ih
  | update uid u _ ih =>
    rw [UserDao.updateUser, collUpdateOne_snd]
    exact WF_of_map_uid_eq _
      (updateOneList_map_uid _ (applySet u) (fun r => rfl) _) ih
  | updateSalary username salary _ ih =>
    rw [UserDao.updateUserSalaryByUsername, collUpdateOne_snd]
    exact WF_of_map_uid_eq _
      (updateOneList_map_uid _ (applySet ⟨none, none, some salary⟩)
        (fun r => rfl) _) ih
  | deleteOne uid _ ih =>
    rw [UserDao.deleteUser, collDeleteOne_snd]
    rcases deleteOneList_spec (fun r => r.uid == uid) _ with
      ⟨-, heq⟩ | ⟨l1, r, l2, hl, -, -, heq⟩
    · rw [heq]
      exact WF_of_map_uid_eq _ rfl ih
    · rw [heq]
      exact WF_delete_case hl ih
  | deleteAll _ ih =>
    exact ⟨by simp [UserDao.deleteAllUsers, collDeleteMany],
      by simp [UserDao.deleteAllUsers, collDeleteMany]⟩

/-- Counterexample to C7: inserting "alice" twice from the empty
collection is reachable and yields two stored records with the same
username, since `createUser` performs no duplicate check. -/
theorem duplicate_usernames_reachable :
    Reachable (UserDao.createUser ⟨"alice", "p2", 2000⟩
        (UserDao.createUser ⟨"alice", "p1", 1000⟩ DB.empty).2).2 ∧
    ¬ ((UserDao.createUser ⟨"alice", "p2", 2000⟩
        (UserDao.createUser ⟨"alice", "p1", 1000⟩ DB.empty).2).2.users.map
          (fun r => r.username)).Nodup :=
  ⟨Reachable.create _ (Reachable.create _ Reachable.empty), by decide⟩

/-- C7 (amended): in every state reachable by the DAO's operations from
the empty collection, the stored ids are unique; usernames need not be
unique, since `createUser` inserts without checking for an existing
username. -/
theorem reachable_ids_unique (db : DB) (h : Reachable db) :
    (db.users.map (fun r => r.uid)).Nodup :=
  (reachable_wf h).2

/-- Witness for the amended C7 at the initial state. -/
theorem reachable_ids_unique_witness :
    ((DB.empty.users.map (fun r => r.uid)).Nodup) :=
  reachable_ids_unique DB.empty Reachable.empty
